import Mathlib

/-!
Verification of the evaluation-metric module `libreco/evaluate/evaluate.py`.

Embedding conventions:
* Python floats that feed numeric results are modelled as `ℚ` where the code
  only compares or stores them (scores, labels, predictions) and as `ℝ` where
  the code takes logarithms, square roots or means.
* A metric call that can raise or silently produce NaN returns a `PyResult`:
  `val x` is a normal float result, `nan` is a silently returned float NaN
  (e.g. `np.mean` of an empty sequence), and the error constructors model the
  exceptions Python raises (`ZeroDivisionError`, `IndexError`, `KeyError`,
  `UnboundLocalError`).  `nonfinite` models the inf/NaN that numpy float
  division by integer zero yields with only a runtime warning.
* `dataset.train_user` (a dict from user id to the set of that user's
  relevant items) is an association list; iteration over the dict iterates
  the pairs, subscripting is `List.lookup`.
* `np.argsort` is a stable insertion sort of the index list by ascending
  score; the source's tie-break among equal scores is unspecified upstream,
  so one fixed tie-break is chosen here.
-/

namespace LibRec

/-- Result of a Python metric call: a float value, a silent NaN, or a raised
exception. `nonfinite` stands for the inf/NaN produced (with only a warning)
when a numpy float is divided by integer zero. The value type is `ℚ` for the
metrics whose arithmetic is exact rational and `ℝ` for those applying
logarithms or square roots. -/
inductive PyResult (α : Type) where
  | val (x : α)
  | nan
  | zeroDivError
  | indexError
  | keyError
  | unboundLocal
  | nonfinite

/-- The model collaborator: `predict u i` is the point prediction,
`predictP u i method` the probabilistic prediction `(probability, raw)`,
`predict_user u` the full ranked score vector for user `u`. -/
structure Model where
  predict : ℕ → ℕ → ℚ
  predictP : ℕ → ℕ → String → ℚ × ℚ
  predict_user : ℕ → List ℚ

/-- The dataset collaborator: the parallel train/test index and label
sequences, the training-interaction dict `train_user`, and `n_users`. -/
structure Dataset where
  train_user : List (ℕ × List ℕ)
  n_users : ℕ
  train_user_indices : List ℕ
  train_item_indices : List ℕ
  train_labels : List ℚ
  train_ratings : List ℚ
  test_user_indices : List ℕ
  test_item_indices : List ℕ
  test_labels : List ℚ
  test_ratings : List ℚ

/-- Arithmetic mean of a list (the value `np.mean` returns on a non-empty
input). -/
def listMean {α : Type} [DivisionRing α] (l : List α) : α := l.sum / l.length

/-- `np.mean`: NaN (`none`) on an empty input, otherwise the mean. -/
def npMean {α : Type} [DivisionRing α] (l : List α) : Option α :=
  match l with
  | [] => none
  | _ => some (listMean l)

/-- Insert index `i` into an index list sorted by ascending score `s`. -/
def insertAsc (s : List ℚ) (i : ℕ) : List ℕ → List ℕ
  | [] => [i]
  | j :: js => if s.getD j 0 ≤ s.getD i 0 then j :: insertAsc s i js else i :: j :: js

/-- Insertion sort of an index list by ascending score `s`. -/
def argsortAux (s : List ℚ) : List ℕ → List ℕ
  | [] => []
  | i :: is => insertAsc s i (argsortAux s is)

/-- `np.argsort s`: the indices `0 .. s.length - 1` sorted by ascending
score. -/
def argsort (s : List ℚ) : List ℕ := argsortAux s (List.range s.length)

/-- `np.argsort(ranklist)[::-1][:k]`: the top-`k` item ids by descending
score. -/
def topK (s : List ℚ) (k : ℕ) : List ℕ := (argsort s).reverse.take k

/-- The `if mode == "train" / elif mode == "test"` dispatch of `rmse_knn`,
selecting `(user_indices, item_indices, labels)`. An unmatched mode leaves
the three variables unassigned (`none`). -/
def selectKnn (d : Dataset) (mode : String) :
    Option (List ℕ × List ℕ × List ℚ) :=
  if mode = "train" then
    some (d.train_user_indices, d.train_item_indices, d.train_labels)
  else if mode = "test" then
    some (d.test_user_indices, d.test_item_indices, d.test_labels)
  else none

/-- The split dispatch of `rmse_svd`, identical to `selectKnn` except that it
reads `ratings` instead of `labels`. -/
def selectSvd (d : Dataset) (mode : String) :
    Option (List ℕ × List ℕ × List ℚ) :=
  if mode = "train" then
    some (d.train_user_indices, d.train_item_indices, d.train_ratings)
  else if mode = "test" then
    some (d.test_user_indices, d.test_item_indices, d.test_ratings)
  else none

/-- The prediction loop of `rmse_knn` / `rmse_svd`: walk the zipped
`(user, item)` pairs in order, calling `predict` on each; the first component
is the collected prediction list `pred`, the second the log of `predict`
invocations in the order they are made. -/
def predLoop (p : ℕ → ℕ → ℚ) : List (ℕ × ℕ) → List ℚ × List (ℕ × ℕ)
  | [] => ([], [])
  | (u, i) :: rest =>
    let r := predLoop p rest
    (p u i :: r.1, (u, i) :: r.2)

/-- `rmse_knn(model, dataset, mode)`: dispatch on the split, collect one
prediction per `(user, item)` pair, return
`np.sqrt(np.mean(np.power(pred - ratings, 2)))`. A mode outside
`{train, test}` reaches the loop with the sequences unbound
(`UnboundLocalError`); an empty split makes `np.mean` return NaN, and
`np.sqrt NaN` is NaN. -/
noncomputable def rmse_knn (m : Model) (d : Dataset) (mode : String) :
    PyResult ℝ :=
  match selectKnn d mode with
  | none => .unboundLocal
  | some (us, is, rs) =>
    let pred := (predLoop m.predict (us.zip is)).1
    match (npMean ((pred.zip rs).map fun q => (q.1 - q.2) ^ 2) : Option ℚ) with
    | none => .nan
    | some x => .val (Real.sqrt (x : ℝ))

/-- `rmse_svd(model, dataset, baseline, mode)`: identical to `rmse_knn`
except that it reads `ratings`; the `baseline` flag is accepted but never
used by the body. -/
noncomputable def rmse_svd (m : Model) (d : Dataset) (baseline : Bool)
    (mode : String) : PyResult ℝ :=
  match selectSvd d mode with
  | none => .unboundLocal
  | some (us, is, rs) =>
    let pred := (predLoop m.predict (us.zip is)).1
    match (npMean ((pred.zip rs).map fun q => (q.1 - q.2) ^ 2) : Option ℚ) with
    | none => .nan
    | some x => .val (Real.sqrt (x : ℝ))

/-- One pass of the rank walk of `AP_at_k`, iterating
`for i in range(1, k + 1)` (here 0-based: `steps` ranks remain, the current
rank accesses `top_k[i]`). Each iteration first indexes `top_k[i]`
(`IndexError` when out of range), then subscripts
`dataset.train_user[u]` (`KeyError` when the user is missing); on a relevant
item it adds `precision_i / i` to the running sum `pk` and bumps the
relevant-count `cnt`, otherwise it continues. -/
def apWalk (d : Dataset) (u : ℕ) (tk : List ℕ) :
    ℕ → ℕ → ℚ → ℕ → Except (PyResult ℚ) (ℚ × ℕ)
  | _, 0, pk, cnt => .ok (pk, cnt)
  | i, steps + 1, pk, cnt =>
    match tk[i]? with
    | none => .error .indexError
    | some item =>
      match d.train_user.lookup u with
      | none => .error .keyError
      | some rel =>
        if item ∈ rel then
          apWalk d u tk (i + 1) steps
            (pk + ((tk.take (i + 1)).countP fun x => decide (x ∈ rel)) / (i + 1 : ℚ))
            (cnt + 1)
        else
          apWalk d u tk (i + 1) steps pk cnt

/-- `AP_at_k(model, dataset, u, k)`: build the top-`k` list from
`model.predict_user(u)`, walk ranks `1 .. k` accumulating
`precision_i / i` over the relevant ranks, then divide the running sum by the
relevant-count; the `try/except ZeroDivisionError` clause turns a zero
relevant-count into the value `0.0`. -/
def AP_at_k (m : Model) (d : Dataset) (u k : ℕ) : PyResult ℚ :=
  let tk := topK (m.predict_user u) k
  match apWalk d u tk 0 k 0 0 with
  | .error e => e
  | .ok (pk, cnt) => if cnt = 0 then .val 0 else .val (pk / cnt)

/-- The value carried by a successful `AP_at_k` call (`0` on a failure);
used to state that `MAP_at_k` averages the per-user `AP_at_k` values. -/
def apVal (m : Model) (d : Dataset) (k u : ℕ) : ℚ :=
  match AP_at_k m d u k with
  | .val x => x
  | _ => 0

/-- The accumulation loop of `MAP_at_k`: add up `AP_at_k` over the users of
`dataset.train_user`, propagating the first exception an `AP_at_k` call
raises. -/
def sumAP (m : Model) (d : Dataset) (k : ℕ) : List ℕ → ℚ → PyResult ℚ
  | [], acc => .val acc
  | u :: us, acc =>
    match AP_at_k m d u k with
    | .val x => sumAP m d k us (acc + x)
    | e => e

/-- `MAP_at_k(model, dataset, k)`: sum `AP_at_k` over every user of
`dataset.train_user` and divide by `dataset.n_users` (a Python integer, so a
zero `n_users` raises `ZeroDivisionError`). -/
def MAP_at_k (m : Model) (d : Dataset) (k : ℕ) : PyResult ℚ :=
  match sumAP m d k (d.train_user.map Prod.fst) 0 with
  | .val s => if d.n_users = 0 then .zeroDivError else .val (s / d.n_users)
  | e => e

/-- `HitRatio_at_k(model, dataset, k)`: for each user count the top-`k`
items lying in that user's relevant set, divide by `k` (`ZeroDivisionError`
at the first user when `k = 0`), and return `np.mean` of the per-user rates
(NaN when there are no users). -/
def HitRatio_at_k (m : Model) (d : Dataset) (k : ℕ) : PyResult ℚ :=
  if d.train_user ≠ [] ∧ k = 0 then .zeroDivError
  else
    match npMean (d.train_user.map fun p =>
        (((topK (m.predict_user p.1) k).countP fun x => decide (x ∈ p.2)) : ℚ) / k) with
    | none => .nan
    | some x => .val x

/-- The DCG loop of `NDCG_at_k`: `for n, item in enumerate(top_k)`, adding
`np.reciprocal(np.log2(n + 2))` for each position whose item is relevant. -/
noncomputable def DCG (tk : List ℕ) (rel : List ℕ) : ℝ :=
  ((tk.enum.filter fun p => decide (p.2 ∈ rel)).map
    fun p => 1 / Real.logb 2 ((p.1 : ℝ) + 2)).sum

/-- The IDCG loop of `NDCG_at_k`: `for n in range(k)`, adding
`np.reciprocal(np.log2(n + 2))` unconditionally. -/
noncomputable def IDCG (k : ℕ) : ℝ :=
  ((List.range k).map fun n : ℕ => 1 / Real.logb 2 ((n : ℝ) + 2)).sum

/-- `NDCG_at_k(model, dataset, k)`: per user, `DCG / IDCG` over the top-`k`
list, summed over the users of `dataset.train_user` and divided by
`dataset.n_users`. With `k = 0` and at least one user the per-user division
is integer `0 / 0` (`ZeroDivisionError`); with `n_users = 0` the final
division raises `ZeroDivisionError` when the sum is still the integer `0`
(no users) and otherwise is a numpy-float division by zero yielding a
non-finite value with only a warning. -/
noncomputable def NDCG_at_k (m : Model) (d : Dataset) (k : ℕ) : PyResult ℝ :=
  if d.train_user ≠ [] ∧ k = 0 then .zeroDivError
  else if d.n_users = 0 then
    (if d.train_user.isEmpty then .zeroDivError else .nonfinite)
  else
    .val ((d.train_user.map fun p =>
      DCG (topK (m.predict_user p.1) k) p.2 / IDCG k).sum / d.n_users)

/-- The cross-entropy contribution of one sample of label `l` and predicted
probability `prob`: `-ln(prob)` for label `1.0` and `-ln(1 - prob)` for
label `0.0`. -/
noncomputable def bceTerm (prob l : ℚ) : ℝ :=
  if l = 1 then -Real.log prob else -Real.log (1 - (prob : ℝ))

/-- The sample loop of `binary_cross_entropy` over the zipped
`(user, (item, label))` triples: every sample's predicted probability is
appended to `probs`; the cross-entropy list `ce` receives `-ln(prob)` when
the label is `1.0`, `-ln(1 - prob)` when it is `0.0`, and nothing
otherwise. -/
noncomputable def bceLoop (m : Model) (meth : String) :
    List (ℕ × ℕ × ℚ) → List ℝ × List ℚ
  | [] => ([], [])
  | (u, i, l) :: rest =>
    let prob := (m.predictP u i meth).1
    let r := bceLoop m meth rest
    (if l = 1 then -Real.log prob :: r.1
     else if l = 0 then -Real.log (1 - (prob : ℝ)) :: r.1
     else r.1,
     prob :: r.2)

/-- `binary_cross_entropy(model, user, item, label, method)`: run the sample
loop over the zipped triples and return `(np.mean(ce), probs)`. -/
noncomputable def binary_cross_entropy (m : Model) (user item : List ℕ)
    (label : List ℚ) (meth : String) : Option ℝ × List ℚ :=
  let r := bceLoop m meth (user.zip (item.zip label))
  (npMean r.1, r.2)

/-- The model whose ranked score vector for user `u` is that of `m` with the
constant `c u` added to every score (other operations unchanged). -/
def shiftModel (m : Model) (c : ℕ → ℚ) : Model :=
  { m with predict_user := fun u => (m.predict_user u).map fun x => x + c u }

/-- A small concrete model used to instantiate the theorems: three catalog
items with scores `[1, 3, 2]` for every user. -/
def mEx : Model where
  predict := fun u i => (u : ℚ) + i
  predictP := fun _ _ _ => (1 / 2, 0)
  predict_user := fun _ => [1, 3, 2]

/-- A small concrete dataset with two users. -/
def dEx : Dataset where
  train_user := [(0, [0, 2]), (1, [1])]
  n_users := 2
  train_user_indices := [0, 1]
  train_item_indices := [1, 0]
  train_labels := [1, 0]
  train_ratings := [2, 3]
  test_user_indices := [1]
  test_item_indices := [0]
  test_labels := [1]
  test_ratings := [4]

/-- A concrete dataset whose two users both have every top-2 item relevant. -/
def dAll : Dataset where
  train_user := [(0, [0, 1, 2]), (1, [1, 2])]
  n_users := 2
  train_user_indices := []
  train_item_indices := []
  train_labels := []
  train_ratings := []
  test_user_indices := []
  test_item_indices := []
  test_labels := []
  test_ratings := []

/-- The empty dataset: zero users, zero samples. -/
def dEmpty : Dataset where
  train_user := []
  n_users := 0
  train_user_indices := []
  train_item_indices := []
  train_labels := []
  train_ratings := []
  test_user_indices := []
  test_item_indices := []
  test_labels := []
  test_ratings := []

theorem length_insertAsc (s : List ℚ) (i : ℕ) (l : List ℕ) :
    (insertAsc s i l).length = l.length + 1 := by
  induction l with
  | nil => rfl
  | cons j js ih =>
    rw [insertAsc]
    split
    · simp [ih]
    · simp

theorem mem_insertAsc (s : List ℚ) (i : ℕ) (l : List ℕ) (x : ℕ) :
    x ∈ insertAsc s i l ↔ x = i ∨ x ∈ l := by
  induction l with
  | nil => simp [insertAsc]
  | cons j js ih =>
    rw [insertAsc]
    split
    · simp only [List.mem_cons, ih]
      tauto
    · simp only [List.mem_cons]

theorem length_argsortAux (s : List ℚ) :
    ∀ is : List ℕ, (argsortAux s is).length = is.length := by
  intro is
  induction is with
  | nil => rfl
  | cons i is ih => rw [argsortAux, length_insertAsc, ih, List.length_cons]

theorem mem_argsortAux (s : List ℚ) :
    ∀ (is : List ℕ) (x : ℕ), x ∈ argsortAux s is → x ∈ is := by
  intro is
  induction is with
  | nil => intro x h; simp [argsortAux] at h
  | cons i is ih =>
    intro x h
    rw [argsortAux, mem_insertAsc] at h
    rcases h with h | h
    · simp [h]
    · exact List.mem_cons_of_mem _ (ih x h)

theorem length_argsort (s : List ℚ) : (argsort s).length = s.length := by
  rw [argsort, length_argsortAux, List.length_range]

theorem length_topK (s : List ℚ) (k : ℕ) :
    (topK s k).length = min k s.length := by
  rw [topK, List.length_take, List.length_reverse, length_argsort]

theorem getD_map_add (s : List ℚ) (c : ℚ) :
    ∀ j, j < s.length → (s.map fun x => x + c).getD j 0 = s.getD j 0 + c := by
  induction s with
  | nil => intro j h; simp at h
  | cons a as ih =>
    intro j h
    cases j with
    | zero => rfl
    | succ n =>
      simp only [List.map_cons, List.getD_cons_succ]
      exact ih n (by simpa using Nat.lt_of_succ_lt_succ h)

theorem insertAsc_map_add (s : List ℚ) (c : ℚ) (i : ℕ) (hi : i < s.length) :
    ∀ l : List ℕ, (∀ j ∈ l, j < s.length) →
      insertAsc (s.map fun x => x + c) i l = insertAsc s i l := by
  intro l
  induction l with
  | nil => intro _; rfl
  | cons j js ih =>
    intro hb
    have hj : j < s.length := hb j (List.mem_cons_self j js)
    rw [insertAsc, insertAsc, getD_map_add s c j hj, getD_map_add s c i hi]
    by_cases hle : s.getD j 0 ≤ s.getD i 0
    · rw [if_pos (by linarith), if_pos hle,
        ih fun x hx => hb x (List.mem_cons_of_mem _ hx)]
    · rw [if_neg (by intro h; exact hle (by linarith)), if_neg hle]

theorem argsortAux_map_add (s : List ℚ) (c : ℚ) :
    ∀ is : List ℕ, (∀ i ∈ is, i < s.length) →
      argsortAux (s.map fun x => x + c) is = argsortAux s is := by
  intro is
  induction is with
  | nil => intro _; rfl
  | cons i is ih =>
    intro hb
    rw [argsortAux, argsortAux,
      ih fun x hx => hb x (List.mem_cons_of_mem _ hx),
      insertAsc_map_add s c i (hb i (List.mem_cons_self i is)) _
        fun j hj => hb j (List.mem_cons_of_mem _ (mem_argsortAux s is j hj))]

theorem argsort_map_add (s : List ℚ) (c : ℚ) :
    argsort (s.map fun x => x + c) = argsort s := by
  rw [argsort, argsort, List.length_map]
  exact argsortAux_map_add s c _ fun i hi => List.mem_range.mp hi

theorem topK_map_add (s : List ℚ) (c : ℚ) (k : ℕ) :
    topK (s.map fun x => x + c) k = topK s k := by
  rw [topK, topK, argsort_map_add]

theorem apWalk_ok (d : Dataset) (u : ℕ) (tk rel : List ℕ)
    (hrel : d.train_user.lookup u = some rel) :
    ∀ steps i pk cnt, i + steps ≤ tk.length →
      ∃ p c, apWalk d u tk i steps pk cnt = .ok (p, c) := by
  intro steps
  induction steps with
  | zero => intro i pk cnt _; exact ⟨pk, cnt, rfl⟩
  | succ n ih =>
    intro i pk cnt h
    have hi : i < tk.length := by omega
    rw [apWalk]
    obtain ⟨item, hitem⟩ : ∃ a, tk[i]? = some a :=
      ⟨tk[i], List.getElem?_eq_some_iff.mpr ⟨hi, rfl⟩⟩
    rw [hitem, hrel]
    dsimp only
    by_cases hmem : item ∈ rel
    · rw [if_pos hmem]
      exact ih (i + 1) _ _ (by omega)
    · rw [if_neg hmem]
      exact ih (i + 1) _ _ (by omega)

theorem apWalk_oob (d : Dataset) (u : ℕ) (tk rel : List ℕ)
    (hrel : d.train_user.lookup u = some rel) :
    ∀ steps i pk cnt, i ≤ tk.length → tk.length < i + steps →
      apWalk d u tk i steps pk cnt = .error .indexError := by
  intro steps
  induction steps with
  | zero => intro i pk cnt h1 h2; omega
  | succ n ih =>
    intro i pk cnt h1 h2
    rw [apWalk]
    by_cases hi : i < tk.length
    · obtain ⟨item, hitem⟩ : ∃ a, tk[i]? = some a :=
        ⟨tk[i], List.getElem?_eq_some_iff.mpr ⟨hi, rfl⟩⟩
      rw [hitem, hrel]
      dsimp only
      by_cases hmem : item ∈ rel
      · rw [if_pos hmem]
        exact ih (i + 1) _ _ (by omega) (by omega)
      · rw [if_neg hmem]
        exact ih (i + 1) _ _ (by omega) (by omega)
    · rw [List.getElem?_eq_none (by omega)]

theorem apWalk_no_rel (d : Dataset) (u : ℕ) (tk rel : List ℕ)
    (hrel : d.train_user.lookup u = some rel)
    (hnone : ∀ x ∈ tk, x ∉ rel) :
    ∀ steps i pk cnt, i + steps ≤ tk.length →
      apWalk d u tk i steps pk cnt = .ok (pk, cnt) := by
  intro steps
  induction steps with
  | zero => intro i pk cnt _; rfl
  | succ n ih =>
    intro i pk cnt h
    have hi : i < tk.length := by omega
    rw [apWalk]
    obtain ⟨item, hitem⟩ : ∃ a, tk[i]? = some a :=
      ⟨tk[i], List.getElem?_eq_some_iff.mpr ⟨hi, rfl⟩⟩
    rw [hitem, hrel]
    dsimp only
    rw [if_neg (hnone item (List.getElem?_mem hitem))]
    exact ih (i + 1) _ _ (by omega)

theorem AP_val_of_le (m : Model) (d : Dataset) (u k : ℕ) (rel : List ℕ)
    (hrel : d.train_user.lookup u = some rel)
    (hk : k ≤ (m.predict_user u).length) :
    ∃ x, AP_at_k m d u k = .val x := by
  obtain ⟨p, c, hw⟩ := apWalk_ok d u (topK (m.predict_user u) k) rel hrel k 0 0 0
    (by rw [length_topK]; omega)
  rw [AP_at_k, hw]
  by_cases hc : c = 0
  · exact ⟨0, by simp [hc]⟩
  · exact ⟨p / c, by simp [hc]⟩

theorem AP_indexError (m : Model) (d : Dataset) (u k : ℕ) (rel : List ℕ)
    (hrel : d.train_user.lookup u = some rel)
    (hlen : (m.predict_user u).length < k) :
    AP_at_k m d u k = .indexError := by
  rw [AP_at_k, apWalk_oob d u (topK (m.predict_user u) k) rel hrel k 0 0 0
    (by omega) (by rw [length_topK]; omega)]

theorem sumAP_val (m : Model) (d : Dataset) (k : ℕ) :
    ∀ us : List ℕ, (∀ u ∈ us, ∃ x, AP_at_k m d u k = .val x) →
      ∀ acc, sumAP m d k us acc = .val (acc + (us.map (apVal m d k)).sum) := by
  intro us
  induction us with
  | nil => intro _ acc; simp [sumAP]
  | cons u us ih =>
    intro h acc
    obtain ⟨x, hx⟩ := h u (List.mem_cons_self u us)
    rw [sumAP, hx]
    dsimp only
    rw [ih (fun v hv => h v (List.mem_cons_of_mem _ hv)) (acc + x),
      List.map_cons, List.sum_cons, apVal, hx, add_assoc]

theorem sumAP_congr (m' m : Model) (d : Dataset) (k : ℕ)
    (h : ∀ u, AP_at_k m' d u k = AP_at_k m d u k) :
    ∀ (us : List ℕ) (acc : ℚ), sumAP m' d k us acc = sumAP m d k us acc := by
  intro us
  induction us with
  | nil => intro _; rfl
  | cons u us ih =>
    intro acc
    rw [sumAP, sumAP, h u]
    cases AP_at_k m d u k with
    | val x => exact ih (acc + x)
    | nan => rfl
    | zeroDivError => rfl
    | indexError => rfl
    | keyError => rfl
    | unboundLocal => rfl
    | nonfinite => rfl

theorem predLoop_log (p : ℕ → ℕ → ℚ) :
    ∀ l : List (ℕ × ℕ), (predLoop p l).2 = l := by
  intro l
  induction l with
  | nil => rfl
  | cons q rest ih =>
    obtain ⟨u, i⟩ := q
    rw [predLoop]
    dsimp only
    rw [ih]

theorem predLoop_pred (p : ℕ → ℕ → ℚ) :
    ∀ l : List (ℕ × ℕ), (predLoop p l).1 = l.map fun q => p q.1 q.2 := by
  intro l
  induction l with
  | nil => rfl
  | cons q rest ih =>
    obtain ⟨u, i⟩ := q
    rw [predLoop, List.map_cons]
    dsimp only
    rw [ih]

theorem bceLoop_probs (m : Model) (meth : String) :
    ∀ ts : List (ℕ × ℕ × ℚ),
      (bceLoop m meth ts).2 = ts.map fun t => (m.predictP t.1 t.2.1 meth).1 := by
  intro ts
  induction ts with
  | nil => rfl
  | cons t ts ih =>
    obtain ⟨u, i, l⟩ := t
    rw [bceLoop, List.map_cons]
    dsimp only
    rw [ih]

theorem bceLoop_ce (m : Model) (meth : String) :
    ∀ ts : List (ℕ × ℕ × ℚ),
      (bceLoop m meth ts).1 =
        (ts.filter fun t => decide (t.2.2 = 1 ∨ t.2.2 = 0)).map
          fun t => bceTerm ((m.predictP t.1 t.2.1 meth).1) t.2.2 := by
  intro ts
  induction ts with
  | nil => rfl
  | cons t ts ih =>
    obtain ⟨u, i, l⟩ := t
    rw [bceLoop, List.filter_cons]
    dsimp only
    by_cases h1 : l = 1
    · rw [if_pos h1, if_pos (by simp [h1]), List.map_cons, ih, bceTerm,
        if_pos h1]
    · rw [if_neg h1]
      by_cases h0 : l = 0
      · rw [if_pos h0, if_pos (by simp [h0]), List.map_cons, ih, bceTerm,
          if_neg h1]
      · rw [if_neg h0, if_neg (by simp [h1, h0]), ih]

theorem logbTerm_pos (n : ℕ) : 0 < 1 / Real.logb 2 ((n : ℝ) + 2) := by
  apply one_div_pos.mpr
  apply Real.logb_pos (by norm_num)
  have : (0 : ℝ) ≤ (n : ℝ) := Nat.cast_nonneg n
  linarith

theorem IDCG_succ (k : ℕ) :
    IDCG (k + 1) = IDCG k + 1 / Real.logb 2 ((k : ℝ) + 2) := by
  rw [IDCG, IDCG, List.range_succ, List.map_append, List.sum_append]
  simp

theorem IDCG_nonneg (k : ℕ) : 0 ≤ IDCG k := by
  induction k with
  | zero => simp [IDCG]
  | succ n ih =>
    rw [IDCG_succ]
    have := logbTerm_pos n
    linarith

theorem IDCG_pos (k : ℕ) (hk : 1 ≤ k) : 0 < IDCG k := by
  cases k with
  | zero => omega
  | succ n =>
    rw [IDCG_succ]
    have h1 := IDCG_nonneg n
    have h2 := logbTerm_pos n
    linarith

theorem DCG_all (tk rel : List ℕ) (h : ∀ x ∈ tk, x ∈ rel) :
    DCG tk rel = IDCG tk.length := by
  rw [DCG, IDCG]
  rw [List.filter_eq_self.mpr fun p hp => by
    rw [List.mem_enum_iff_getElem?] at hp
    exact decide_eq_true (h p.2 (List.getElem?_mem hp))]
  rw [show (fun p : ℕ × ℕ => 1 / Real.logb 2 ((p.1 : ℝ) + 2)) =
      ((fun n : ℕ => 1 / Real.logb 2 ((n : ℝ) + 2)) ∘ Prod.fst) from rfl,
    ← List.map_map, List.enum_map_fst]

theorem npMean_eq {α : Type} [DivisionRing α] (l : List α) (h : l ≠ []) :
    npMean l = some (listMean l) := by
  cases l with
  | nil => exact absurd rfl h
  | cons a l => rfl

theorem ne_nil_of_length_eq {α : Type} (l : List α) (n : ℕ) (hl : l.length = n)
    (hn : n ≠ 0) : l ≠ [] := by
  intro h
  rw [h] at hl
  exact hn (by simpa using hl.symm)

theorem rmseMean_eq (p : ℕ → ℕ → ℚ) (us is : List ℕ) (rs : List ℚ)
    (h1 : is.length = us.length) (h2 : rs.length = us.length)
    (hne : us ≠ []) :
    npMean (((predLoop p (us.zip is)).1.zip rs).map fun q => (q.1 - q.2) ^ 2) =
      some (listMean ((((us.zip is).map fun q => p q.1 q.2).zip rs).map
        fun q => (q.1 - q.2) ^ 2)) := by
  rw [predLoop_pred]
  apply npMean_eq
  apply ne_nil_of_length_eq _ us.length _ (fun h => hne (List.length_eq_zero.mp h))
  simp [List.length_zip, h1, h2]

/-- C1: for every user `u` with a relevant set, cutoff `k ≥ 1` and ranked
score vector of length at least `k`, if no item among the top-`k` ranked
items is in the user's relevant set (so the relevant-count after the walk is
0), `AP_at_k` returns exactly `0.0` and raises no error. -/
theorem C1_AP_zero_when_no_relevant (m : Model) (d : Dataset) (u k : ℕ)
    (rel : List ℕ) (hk : 1 ≤ k) (hrel : d.train_user.lookup u = some rel)
    (hlen : k ≤ (m.predict_user u).length)
    (hnone : ∀ i ∈ topK (m.predict_user u) k, i ∉ rel) :
    AP_at_k m d u k = .val 0 := by
  rw [AP_at_k, apWalk_no_rel d u _ rel hrel hnone k 0 0 0
    (by rw [length_topK]; omega)]
  rfl

/-- Witness for C1 at a concrete input: user 0 of `dEx` has relevant set
`[0, 2]` while the top-1 item by score is item 1. -/
theorem C1_witness : AP_at_k mEx dEx 0 1 = PyResult.val 0 :=
  C1_AP_zero_when_no_relevant mEx dEx 0 1 [0, 2] (by decide) (by decide)
    (by decide) (by decide)

/-- C8: adding a constant to every score of a user's ranked score vector
leaves the top-`k` list unchanged, and therefore leaves `AP_at_k`,
`MAP_at_k`, `HitRatio_at_k` and `NDCG_at_k` unchanged. -/
theorem C8_shift_invariance (m : Model) (c : ℕ → ℚ) (d : Dataset) (u k : ℕ) :
    topK ((shiftModel m c).predict_user u) k = topK (m.predict_user u) k ∧
    AP_at_k (shiftModel m c) d u k = AP_at_k m d u k ∧
    MAP_at_k (shiftModel m c) d k = MAP_at_k m d k ∧
    HitRatio_at_k (shiftModel m c) d k = HitRatio_at_k m d k ∧
    NDCG_at_k (shiftModel m c) d k = NDCG_at_k m d k := by
  have htop : ∀ v κ, topK ((shiftModel m c).predict_user v) κ
      = topK (m.predict_user v) κ := by
    intro v κ
    rw [shiftModel]
    exact topK_map_add (m.predict_user v) (c v) κ
  have hAP : ∀ v κ, AP_at_k (shiftModel m c) d v κ = AP_at_k m d v κ := by
    intro v κ
    rw [AP_at_k, AP_at_k, htop]
  refine ⟨htop u k, hAP u k, ?_, ?_, ?_⟩
  · rw [MAP_at_k, MAP_at_k, sumAP_congr _ _ d k fun v => hAP v k]
  · rw [HitRatio_at_k, HitRatio_at_k,
      List.map_congr_left fun p _ => by rw [htop p.1 k]]
  · rw [NDCG_at_k, NDCG_at_k,
      List.map_congr_left fun p _ => by rw [htop p.1 k]]

/-- C9: with a relevant set present and `k ≥ 1`, every index access of
`AP_at_k` is in bounds when the score vector has length at least `k` (the
call returns a value), while a shorter vector makes `AP_at_k` raise
`IndexError`; the top-`k` list has `min k length` entries, and
`HitRatio_at_k` and `NDCG_at_k` silently iterate over those fewer positions
while still dividing by the full `k` (and by the `k`-term `IDCG`). -/
theorem C9_short_vector_behavior (m : Model) (d : Dataset) (u k : ℕ)
    (rel : List ℕ) (hk : 1 ≤ k) (hrel : d.train_user.lookup u = some rel) :
    ((k ≤ (m.predict_user u).length → ∃ x, AP_at_k m d u k = .val x) ∧
      ((m.predict_user u).length < k → AP_at_k m d u k = .indexError)) ∧
    (∀ s : List ℚ, (topK s k).length = min k s.length) ∧
    (d.train_user ≠ [] →
      HitRatio_at_k m d k = .val (listMean (d.train_user.map fun p =>
        (((topK (m.predict_user p.1) k).countP fun x => decide (x ∈ p.2)) : ℚ) / k))) ∧
    (d.train_user ≠ [] → d.n_users ≠ 0 →
      NDCG_at_k m d k = .val ((d.train_user.map fun p =>
        DCG (topK (m.predict_user p.1) k) p.2 / IDCG k).sum / d.n_users)) := by
  refine ⟨⟨fun h => AP_val_of_le m d u k rel hrel h,
    fun h => AP_indexError m d u k rel hrel h⟩,
    fun s => length_topK s k, ?_, ?_⟩
  · intro hne
    rw [HitRatio_at_k, if_neg fun hc => absurd hc.2 (by omega),
      npMean_eq _ (fun hm => hne (List.map_eq_nil_iff.mp hm))]
  · intro hne hnu
    rw [NDCG_at_k, if_neg fun hc => absurd hc.2 (by omega), if_neg hnu]

/-- Witness for C9 at a concrete input: user 0 of `dEx`, cutoff 5 against a
3-item score vector. -/
theorem C9_witness : AP_at_k mEx dEx 0 5 = PyResult.indexError :=
  ((C9_short_vector_behavior mEx dEx 0 5 [0, 2] (by decide)
    (by decide)).1.2 (by decide))

/-- C2: whenever every per-user `AP_at_k` call succeeds (relevant set present
and score vector long enough) and `n_users` equals the number of users in
`train_user`, `MAP_at_k` equals the arithmetic mean of the per-user
`AP_at_k` values over the users of `train_user`, dividing by the total user
count. -/
theorem C2_MAP_mean_of_AP (m : Model) (d : Dataset) (k : ℕ)
    (hn : d.n_users = d.train_user.length) (hne : d.train_user ≠ [])
    (hok : ∀ u ∈ d.train_user.map Prod.fst,
      (d.train_user.lookup u).isSome ∧ k ≤ (m.predict_user u).length) :
    (∀ u ∈ d.train_user.map Prod.fst,
      AP_at_k m d u k = .val (apVal m d k u)) ∧
    MAP_at_k m d k =
      .val (listMean ((d.train_user.map Prod.fst).map (apVal m d k))) := by
  have hval : ∀ u ∈ d.train_user.map Prod.fst,
      ∃ x, AP_at_k m d u k = .val x := by
    intro u hu
    obtain ⟨h1, h2⟩ := hok u hu
    obtain ⟨rel, hrel⟩ := Option.isSome_iff_exists.mp h1
    exact AP_val_of_le m d u k rel hrel h2
  refine ⟨?_, ?_⟩
  · intro u hu
    obtain ⟨x, hx⟩ := hval u hu
    rw [hx, apVal, hx]
  · rw [MAP_at_k, sumAP_val m d k _ hval 0]
    dsimp only
    rw [if_neg (by rw [hn]; exact fun h => hne (List.length_eq_zero.mp h)),
      zero_add, listMean, List.length_map, List.length_map, hn]

/-- Witness for C2 at a concrete input: both users of `dEx` with cutoff 2. -/
theorem C2_witness : MAP_at_k mEx dEx 2 =
    PyResult.val (listMean ((dEx.train_user.map Prod.fst).map (apVal mEx dEx 2))) :=
  (C2_MAP_mean_of_AP mEx dEx 2 (by decide) (by decide) (by decide)).2

/-- C3: with `k ≥ 1`, `n_users` equal to the user count, at least one user,
and for every user a score vector of length at least `k` whose top-`k` items
all lie in that user's relevant set, per-user DCG equals IDCG and
`NDCG_at_k` returns exactly `1.0`. -/
theorem C3_NDCG_perfect (m : Model) (d : Dataset) (k : ℕ) (hk : 1 ≤ k)
    (hn : d.n_users = d.train_user.length) (hne : d.train_user ≠ [])
    (hall : ∀ p ∈ d.train_user, k ≤ (m.predict_user p.1).length ∧
      ∀ i ∈ topK (m.predict_user p.1) k, i ∈ p.2) :
    NDCG_at_k m d k = .val 1 := by
  rw [NDCG_at_k, if_neg fun hc => absurd hc.2 (by omega),
    if_neg (by rw [hn]; exact fun h => hne (List.length_eq_zero.mp h))]
  have hmap : (d.train_user.map fun p =>
      DCG (topK (m.predict_user p.1) k) p.2 / IDCG k)
      = d.train_user.map fun _ => (1 : ℝ) := by
    apply List.map_congr_left
    intro p hp
    obtain ⟨hlen, hrel⟩ := hall p hp
    rw [DCG_all _ _ hrel, length_topK, min_eq_left hlen,
      div_self (ne_of_gt (IDCG_pos k hk))]
  have hsum : (d.train_user.map fun _ => (1 : ℝ)).sum
      = (d.train_user.length : ℝ) := by
    simp
  have hlen0 : d.train_user.length ≠ 0 := fun h => hne (List.length_eq_zero.mp h)
  rw [hmap, hsum, hn, div_self (Nat.cast_ne_zero.mpr hlen0)]

/-- Witness for C3 at a concrete input: both users of `dAll` have the full
top-2 list `[1, 2]` inside their relevant sets. -/
theorem C3_witness : NDCG_at_k mEx dAll 2 = PyResult.val 1 :=
  C3_NDCG_perfect mEx dAll 2 (by decide) (by decide) (by decide) (by decide)

/-- C4: on non-empty parallel sequences, the RMSE loop invokes the supplied
prediction function exactly once per input triple in sequence order (the
invocation log equals the input pair sequence), and `rmse_knn` / `rmse_svd`
return `sqrt(mean((pred - true)^2))` over the parallel prediction and truth
sequences, for both splits. -/
theorem C4_rmse_contract (m : Model) (d : Dataset) (b : Bool)
    (h1 : d.train_item_indices.length = d.train_user_indices.length)
    (h2 : d.train_labels.length = d.train_user_indices.length)
    (h3 : d.train_ratings.length = d.train_user_indices.length)
    (h4 : d.test_item_indices.length = d.test_user_indices.length)
    (h5 : d.test_labels.length = d.test_user_indices.length)
    (h6 : d.test_ratings.length = d.test_user_indices.length)
    (hne : d.train_user_indices ≠ []) (hne2 : d.test_user_indices ≠ []) :
    (∀ l : List (ℕ × ℕ), (predLoop m.predict l).2 = l ∧
      (predLoop m.predict l).1 = l.map fun q => m.predict q.1 q.2) ∧
    rmse_knn m d "train" = .val (Real.sqrt ((listMean
      ((((d.train_user_indices.zip d.train_item_indices).map
          fun q => m.predict q.1 q.2).zip d.train_labels).map
        fun q => (q.1 - q.2) ^ 2) : ℚ) : ℝ)) ∧
    rmse_knn m d "test" = .val (Real.sqrt ((listMean
      ((((d.test_user_indices.zip d.test_item_indices).map
          fun q => m.predict q.1 q.2).zip d.test_labels).map
        fun q => (q.1 - q.2) ^ 2) : ℚ) : ℝ)) ∧
    rmse_svd m d b "train" = .val (Real.sqrt ((listMean
      ((((d.train_user_indices.zip d.train_item_indices).map
          fun q => m.predict q.1 q.2).zip d.train_ratings).map
        fun q => (q.1 - q.2) ^ 2) : ℚ) : ℝ)) ∧
    rmse_svd m d b "test" = .val (Real.sqrt ((listMean
      ((((d.test_user_indices.zip d.test_item_indices).map
          fun q => m.predict q.1 q.2).zip d.test_ratings).map
        fun q => (q.1 - q.2) ^ 2) : ℚ) : ℝ)) := by
  refine ⟨fun l => ⟨predLoop_log m.predict l, predLoop_pred m.predict l⟩,
    ?_, ?_, ?_, ?_⟩
  · rw [rmse_knn, selectKnn, if_pos rfl]
    dsimp only
    rw [rmseMean_eq m.predict _ _ _ h1 h2 hne]
  · rw [rmse_knn, selectKnn, if_neg (by decide), if_pos rfl]
    dsimp only
    rw [rmseMean_eq m.predict _ _ _ h4 h5 hne2]
  · rw [rmse_svd, selectSvd, if_pos rfl]
    dsimp only
    rw [rmseMean_eq m.predict _ _ _ h1 h3 hne]
  · rw [rmse_svd, selectSvd, if_neg (by decide), if_pos rfl]
    dsimp only
    rw [rmseMean_eq m.predict _ _ _ h4 h6 hne2]

/-- Witness for C4 at a concrete input: the parallel train and test
sequences of `dEx`. -/
theorem C4_witness : rmse_knn mEx dEx "train" = PyResult.val (Real.sqrt
    ((listMean ((((dEx.train_user_indices.zip dEx.train_item_indices).map
        fun q => mEx.predict q.1 q.2).zip dEx.train_labels).map
      fun q => (q.1 - q.2) ^ 2) : ℚ) : ℝ)) :=
  (C4_rmse_contract mEx dEx false (by decide) (by decide) (by decide)
    (by decide) (by decide) (by decide) (by decide) (by decide)).2.1

/-- C5: on non-empty parallel sequences whose labels all lie in
`{0.0, 1.0}`, `binary_cross_entropy` contributes `-ln(p)` for a label `1.0`
sample and `-ln(1 - p)` for a label `0.0` sample, and returns the pair
(mean cross-entropy over all samples, the predicted probabilities in input
order). -/
theorem C5_bce_valid_labels (m : Model) (user item : List ℕ) (label : List ℚ)
    (meth : String) (hlen1 : item.length = user.length)
    (hlen2 : label.length = user.length) (hne : user ≠ [])
    (hlab : ∀ l ∈ label, l = 1 ∨ l = 0) :
    binary_cross_entropy m user item label meth =
      (some (listMean ((user.zip (item.zip label)).map fun t =>
          bceTerm ((m.predictP t.1 t.2.1 meth).1) t.2.2)),
        (user.zip (item.zip label)).map fun t => (m.predictP t.1 t.2.1 meth).1) := by
  rw [binary_cross_entropy]
  rw [bceLoop_probs, bceLoop_ce]
  rw [List.filter_eq_self.mpr ?hf]
  case hf =>
    intro t ht
    obtain ⟨a, b, c⟩ := t
    exact decide_eq_true (hlab c (List.of_mem_zip (List.of_mem_zip ht).2).2)
  rw [npMean_eq _ (ne_nil_of_length_eq _ user.length
    (by simp [List.length_zip, hlen1, hlen2])
    fun h => hne (List.length_eq_zero.mp h))]

/-- Witness for C5 at a concrete input: one sample with label `1.0`. -/
theorem C5_witness : binary_cross_entropy mEx [0] [1] [1] "mf" =
    (some (listMean (([(0, 1, (1 : ℚ))] : List (ℕ × ℕ × ℚ)).map fun t =>
        bceTerm ((mEx.predictP t.1 t.2.1 "mf").1) t.2.2)),
      ([(0, 1, (1 : ℚ))] : List (ℕ × ℕ × ℚ)).map
        fun t => (mEx.predictP t.1 t.2.1 "mf").1) :=
  C5_bce_valid_labels mEx [0] [1] [1] "mf" (by decide) (by decide) (by decide)
    (by decide)

/-- C10: `binary_cross_entropy` appends every sample's predicted probability
to the returned sequence, accumulates cross-entropy only over the samples
whose label is `1.0` or `0.0` (invalid labels are silently skipped, raising
no error), takes the mean over just that filtered list, and when no label is
valid the mean is `np.mean` of an empty sequence. -/
theorem C10_bce_invalid_labels (m : Model) (user item : List ℕ)
    (label : List ℚ) (meth : String) :
    (binary_cross_entropy m user item label meth).2 =
      (user.zip (item.zip label)).map (fun t => (m.predictP t.1 t.2.1 meth).1) ∧
    (binary_cross_entropy m user item label meth).1 =
      npMean (((user.zip (item.zip label)).filter
          fun t => decide (t.2.2 = 1 ∨ t.2.2 = 0)).map
        fun t => bceTerm ((m.predictP t.1 t.2.1 meth).1) t.2.2) ∧
    ((∀ t ∈ user.zip (item.zip label), ¬(t.2.2 = 1 ∨ t.2.2 = 0)) →
      (binary_cross_entropy m user item label meth).1 = none) := by
  refine ⟨?_, ?_, ?_⟩
  · rw [binary_cross_entropy]
    rw [bceLoop_probs]
  · rw [binary_cross_entropy]
    rw [bceLoop_ce]
  · intro h
    rw [binary_cross_entropy]
    rw [bceLoop_ce, List.filter_eq_nil_iff.mpr
      (fun t ht => by simpa using h t ht), List.map_nil]
    rfl

/-- Witness for C10 at a concrete input: a single sample whose label `5.0`
is invalid, so the mean is taken over an empty sequence (NaN). -/
theorem C10_witness : (binary_cross_entropy mEx [0] [0] [5] "mf").1 = none :=
  (C10_bce_invalid_labels mEx [0] [0] [5] "mf").2.2 (by decide)

/-- C6 counterexample: `rmse_knn` over the empty train split of `dEmpty`
silently returns the float NaN (`np.mean` of an empty sequence), not a
raised, well-defined error — refuting that every aggregate metric fails
explicitly on zero samples. -/
theorem C6_counterexample : rmse_knn mEx dEmpty "train" = PyResult.nan := by
  rfl

/-- C6 (amended): on zero samples or users, RMSE (both variants),
`HitRatio_at_k` and the cross-entropy mean silently produce NaN, while
`MAP_at_k` and `NDCG_at_k` raise `ZeroDivisionError` when `n_users` is 0 —
the aggregates do not uniformly fail with an explicit error. -/
theorem C6_empty_input_behavior (m : Model) (d : Dataset) (k : ℕ)
    (user item : List ℕ) (label : List ℚ) (meth : String) :
    (d.train_user_indices = [] →
      rmse_knn m d "train" = .nan ∧ rmse_svd m d false "train" = .nan) ∧
    (d.train_user = [] → HitRatio_at_k m d k = .nan) ∧
    (user = [] → (binary_cross_entropy m user item label meth).1 = none) ∧
    (d.train_user = [] → d.n_users = 0 →
      MAP_at_k m d k = .zeroDivError ∧ NDCG_at_k m d k = .zeroDivError) := by
  refine ⟨?_, ?_, ?_, ?_⟩
  · intro h
    constructor
    · rw [rmse_knn, selectKnn, if_pos rfl]
      dsimp only
      rw [h]
      rfl
    · rw [rmse_svd, selectSvd, if_pos rfl]
      dsimp only
      rw [h]
      rfl
  · intro h
    rw [HitRatio_at_k, if_neg fun hc => hc.1 h, h]
    rfl
  · intro h
    rw [h, binary_cross_entropy]
    rfl
  · intro h hn
    constructor
    · rw [MAP_at_k, h]
      dsimp only [List.map_nil, sumAP]
      rw [if_pos hn]
    · rw [NDCG_at_k, h, if_neg fun hc => hc.1 rfl, if_pos hn]
      rfl

/-- Witness for the amended C6 at concrete inputs: `dEmpty` has no users, so
`HitRatio_at_k` is NaN while `NDCG_at_k` raises `ZeroDivisionError`. -/
theorem C6_witness : HitRatio_at_k mEx dEmpty 3 = PyResult.nan ∧
    NDCG_at_k mEx dEmpty 3 = PyResult.zeroDivError :=
  ⟨(C6_empty_input_behavior mEx dEmpty 3 [] [] [] "mf").2.1 rfl,
    ((C6_empty_input_behavior mEx dEmpty 3 [] [] [] "mf").2.2.2 rfl rfl).2⟩

/-- C7 counterexample: calling `rmse_knn` with the unsupported mode
`"eval"` silently falls through the train/test dispatch and only fails later
at the loop over the unassigned sequence variables (`UnboundLocalError`);
no explicit unsupported-split validation error exists in the code. -/
theorem C7_counterexample : rmse_knn mEx dEx "eval" = PyResult.unboundLocal := by
  rfl

/-- C7 (amended): for every mode outside `{train, test}`, `rmse_knn` and
`rmse_svd` silently fall through the split dispatch and raise
`UnboundLocalError` when the loop touches the undefined sequence variables,
rather than failing with an explicit dispatch-time error. -/
theorem C7_unknown_mode (m : Model) (d : Dataset) (b : Bool) (mode : String)
    (h1 : mode ≠ "train") (h2 : mode ≠ "test") :
    rmse_knn m d mode = .unboundLocal ∧ rmse_svd m d b mode = .unboundLocal := by
  constructor
  · rw [rmse_knn, selectKnn, if_neg h1, if_neg h2]
  · rw [rmse_svd, selectSvd, if_neg h1, if_neg h2]

/-- Witness for the amended C7 at a concrete input: mode `"evaluate"`. -/
theorem C7_witness : rmse_knn mEx dEx "evaluate" = PyResult.unboundLocal :=
  (C7_unknown_mode mEx dEx false "evaluate" (by decide) (by decide)).1

end LibRec
